import Mathlib

/-
  Verification development for the safe-transaction-history service.

  The Python source is shallowly embedded: addresses, hashes and byte
  strings become Nat / List Nat, Django rows become Lean structures, the
  database tables become lists of rows, and Python exceptions become
  Except values.  A step that raises inside a transaction.atomic block is
  modelled as returning an error, with the caller keeping the previous
  ledger state (rollback).
-/

set_option maxRecDepth 4000

/-- Address, 20-byte value, modelled as Nat.  NULL_ADDRESS is 0. -/
abbrev Addr := Nat

/-- Decoded argument value, as produced by the transaction decoder and
stored in the JSON arguments field of InternalTxDecoded. -/
inductive Arg where
  | num (n : Nat)
  | addr (a : Addr)
  | addrList (l : List Addr)
  | bytes (b : List Nat)
  | hexStr (b : List Nat)
deriving DecidableEq, Repr

/-- A decoded arguments dictionary: Python dict str -> value. -/
abbrev Args := List (String × Arg)

/-- Python exception kinds that can escape the embedded code. -/
inductive PyErr where
  | keyError
  | typeError
  | valueError
  | attributeError
deriving DecidableEq, Repr

/-- Python dict access d[k]: KeyError when the key is absent. -/
def dictGet : Args → String → Except PyErr Arg
  | [], _ => .error .keyError
  | p :: ps, k => if p.1 = k then .ok p.2 else dictGet ps k

/-- Python membership test: k in d. -/
def hasKey : Args → String → Bool
  | [], _ => false
  | p :: ps, k => if p.1 = k then true else hasKey ps k

/-- Read a numeric argument. -/
def getNum (args : Args) (k : String) : Except PyErr Nat :=
  match dictGet args k with
  | .ok (.num n) => .ok n
  | .ok _ => .error .typeError
  | .error e => .error e

/-- Read an address argument. -/
def getAddr (args : Args) (k : String) : Except PyErr Addr :=
  match dictGet args k with
  | .ok (.addr a) => .ok a
  | .ok _ => .error .typeError
  | .error e => .error e

/-- Read a list-of-addresses argument. -/
def getAddrList (args : Args) (k : String) : Except PyErr (List Addr) :=
  match dictGet args k with
  | .ok (.addrList l) => .ok l
  | .ok _ => .error .typeError
  | .error e => .error e

/-- Read a byte-string argument.  HexBytes accepts both raw bytes and a
hexadecimal string, which is how the decoder stores bytes arguments. -/
def getBytes (args : Args) (k : String) : Except PyErr (List Nat) :=
  match dictGet args k with
  | .ok (.bytes b) => .ok b
  | .ok (.hexStr b) => .ok b
  | .ok _ => .error .typeError
  | .error e => .error e

/-
  Transaction decoder (tx_decoder.py).

  The web3 contract object is modelled as a list of functions, each with a
  4-byte selector and an argument parser.  decode_function_input raises
  ValueError with a fixed message when no function matches the selector of
  the data, and the argument parser signals its own failures as ValueError
  with a different message; decode_transaction turns the former into
  CannotDecode and every other ValueError into UnexpectedProblemDecoding.
-/

/-- Message web3 uses when the selector matches no ABI function. -/
def selectorMsg : String := "Could not find any function with matching selector"

/-- One ABI function of a supported contract: 4-byte selector, name, and
argument decoder for the bytes after the selector (error = ValueError
message raised while parsing). -/
structure FunctionABI where
  selector : List Nat
  fn_name : String
  parse : List Nat → Except String Args

/-- A supported contract: its ABI functions. -/
structure ContractABI where
  functions : List FunctionABI

/-- Outcome of web3 decode_function_input: a decoded call or a ValueError
carrying a message. -/
inductive DFI where
  | ok (fn : String) (args : Args)
  | valueError (msg : String)

/-- Find the ABI function whose selector equals the given bytes. -/
def findFunction : List FunctionABI → List Nat → Option FunctionABI
  | [], _ => none
  | f :: fs, sel => if f.selector = sel then some f else findFunction fs sel

/-- Model of web3 decode_function_input: take the first 4 bytes of data as
selector, look it up, then parse the remaining bytes against the ABI. -/
def decode_function_input (c : ContractABI) (data : List Nat) : DFI :=
  match findFunction c.functions (data.take 4) with
  | none => .valueError selectorMsg
  | some f =>
    match f.parse (data.drop 4) with
    | .ok args => .ok f.fn_name args
    | .error msg => .valueError msg

/-- Errors raised by TxDecoder.decode_transaction. -/
inductive TxDecoderError where
  | cannotDecode
  | unexpectedProblemDecoding
deriving DecidableEq, Repr

/-- The TxDecoder: its supported contracts (the source builds the list
with the single Safe contract ABI). -/
structure TxDecoderModel where
  supported_contracts : List ContractABI

/-- TxDecoder private helper: normalize decoded arguments, converting
bytes values to hexadecimal strings for durable storage. -/
def parse_decoded_arguments (decoded : Args) : Args :=
  decoded.map (fun p =>
    match p.2 with
    | .bytes b => (p.1, .hexStr b)
    | v => (p.1, v))

/-- TxDecoder.decode_transaction: try the first supported contract (the
loop returns from its first iteration unless it raises); a ValueError
with the no-matching-selector message, or an empty contract list, yields
CannotDecode, any other ValueError yields UnexpectedProblemDecoding. -/
def decode_transaction (t : TxDecoderModel) (data : List Nat) :
    Except TxDecoderError (String × Args) :=
  match t.supported_contracts with
  | [] => .error .cannotDecode
  | c :: _ =>
    match decode_function_input c data with
    | .ok fn args => .ok (fn, parse_decoded_arguments args)
    | .valueError msg =>
      if msg = selectorMsg then .error .cannotDecode
      else .error .unexpectedProblemDecoding

lemma findFunction_eq_none {fs : List FunctionABI} {sel : List Nat} :
    findFunction fs sel = none ↔ ∀ f ∈ fs, f.selector ≠ sel := by
  induction fs with
  | nil => simp [findFunction]
  | cons f fs ih =>
    by_cases h : f.selector = sel
    · simp [findFunction, h]
    · simp [findFunction, h, ih]

lemma findFunction_mem {fs : List FunctionABI} {sel : List Nat} {f : FunctionABI}
    (h : findFunction fs sel = some f) : f ∈ fs ∧ f.selector = sel := by
  induction fs with
  | nil => simp [findFunction] at h
  | cons g fs ih =>
    by_cases hg : g.selector = sel
    · simp [findFunction, hg] at h
      subst h
      exact ⟨List.mem_cons_self _ _, hg⟩
    · simp [findFunction, hg] at h
      rcases ih h with ⟨hm, hs⟩
      exact ⟨List.mem_cons_of_mem _ hm, hs⟩

/-- C8: decode_transaction fails with CannotDecode exactly when the
leading 4-byte selector of the data is not in the ABI registry (in
particular whenever the data is shorter than 4 bytes), and fails with
UnexpectedProblemDecoding exactly when a function matched the selector
but its arguments failed to parse. -/
theorem c8_decode_errors (c : ContractABI) (t : TxDecoderModel) (data : List Nat)
    (hsup : t.supported_contracts = [c])
    (hsel : ∀ f ∈ c.functions, f.selector.length = 4)
    (hmsg : ∀ f ∈ c.functions, ∀ params msg, f.parse params = .error msg → msg ≠ selectorMsg) :
    (decode_transaction t data = .error .cannotDecode ↔
      ((∀ f ∈ c.functions, f.selector ≠ data.take 4) ∨ data.length < 4)) ∧
    (decode_transaction t data = .error .unexpectedProblemDecoding ↔
      (∃ f, findFunction c.functions (data.take 4) = some f ∧
        ∃ msg, f.parse (data.drop 4) = .error msg)) := by
  have hshort : data.length < 4 → ∀ f ∈ c.functions, f.selector ≠ data.take 4 := by
    intro hlt f hf heq
    have : (data.take 4).length = data.length := by
      simp [List.length_take]
      omega
    have h4 := hsel f hf
    rw [heq] at h4
    omega
  constructor
  · constructor
    · intro h
      by_cases hfind : findFunction c.functions (data.take 4) = none
      · left
        exact findFunction_eq_none.mp hfind
      · rcases Option.ne_none_iff_exists'.mp hfind with ⟨f, hft⟩
        exfalso
        rcases findFunction_mem hft with ⟨hmem, _⟩
        simp [decode_transaction, hsup, decode_function_input, hft] at h
        cases hp : f.parse (data.drop 4) with
        | ok args => simp [hp] at h
        | error msg =>
          have hne := hmsg f hmem (data.drop 4) msg hp
          simp [hp, hne] at h
    · intro h
      have hnone : findFunction c.functions (data.take 4) = none := by
        apply findFunction_eq_none.mpr
        cases h with
        | inl h => exact h
        | inr h => exact hshort h
      simp [decode_transaction, hsup, decode_function_input, hnone]
  · constructor
    · intro h
      cases hfind : findFunction c.functions (data.take 4) with
      | none =>
        exfalso
        simp [decode_transaction, hsup, decode_function_input, hfind] at h
      | some f =>
        refine ⟨f, rfl, ?_⟩
        cases hp : f.parse (data.drop 4) with
        | ok args =>
          exfalso
          simp [decode_transaction, hsup, decode_function_input, hfind, hp] at h
        | error msg => exact ⟨msg, rfl⟩
    · rintro ⟨f, hft, msg, hp⟩
      rcases findFunction_mem hft with ⟨hmem, _⟩
      have hne := hmsg f hmem (data.drop 4) msg hp
      simp [decode_transaction, decode_function_input, hsup, hft, hp, hne]

/-- Concrete ABI function used by witnesses: selector 1,2,3,4; its
argument parser fails unless given at least one byte. -/
def witFn1 : FunctionABI :=
  ⟨[1, 2, 3, 4], "setup", fun params =>
    if params.length = 0 then .error "insufficient data bytes" else .ok [("x", .num 7)]⟩

/-- Concrete ABI function used by witnesses: selector 9,9,9,9; parser
always succeeds with no arguments. -/
def witFn2 : FunctionABI := ⟨[9, 9, 9, 9], "approveHash", fun _ => .ok []⟩

/-- Concrete decoder used by witnesses. -/
def witDecoder : TxDecoderModel := ⟨[⟨[witFn1, witFn2]⟩]⟩

lemma witDecoder_msgs :
    ∀ f ∈ (⟨[witFn1, witFn2]⟩ : ContractABI).functions,
      ∀ params msg, f.parse params = .error msg → msg ≠ selectorMsg := by
  intro f hf params msg hp
  simp at hf
  rcases hf with h | h
  · subst h
    by_cases hl : params = []
    · simp [witFn1, hl] at hp
      subst hp
      decide
    · simp [witFn1, hl] at hp
  · subst h
    simp [witFn2] at hp

/-- Witness for C8: on data 7,7,7,7 (unknown selector) the claim's first
equivalence holds concretely, and on data 1,2,3,4 (known selector, empty
argument bytes) the second one does. -/
theorem c8_decode_errors_witness :
    ((decode_transaction witDecoder [7, 7, 7, 7] = .error .cannotDecode ↔
      ((∀ f ∈ (⟨[witFn1, witFn2]⟩ : ContractABI).functions,
          f.selector ≠ ([7, 7, 7, 7] : List Nat).take 4) ∨
        ([7, 7, 7, 7] : List Nat).length < 4)) ∧
    (decode_transaction witDecoder [7, 7, 7, 7] = .error .unexpectedProblemDecoding ↔
      (∃ f, findFunction (⟨[witFn1, witFn2]⟩ : ContractABI).functions
          (([7, 7, 7, 7] : List Nat).take 4) = some f ∧
        ∃ msg, f.parse (([7, 7, 7, 7] : List Nat).drop 4) = .error msg))) ∧
    ((decode_transaction witDecoder [1, 2, 3, 4] = .error .cannotDecode ↔
      ((∀ f ∈ (⟨[witFn1, witFn2]⟩ : ContractABI).functions,
          f.selector ≠ ([1, 2, 3, 4] : List Nat).take 4) ∨
        ([1, 2, 3, 4] : List Nat).length < 4)) ∧
    (decode_transaction witDecoder [1, 2, 3, 4] = .error .unexpectedProblemDecoding ↔
      (∃ f, findFunction (⟨[witFn1, witFn2]⟩ : ContractABI).functions
          (([1, 2, 3, 4] : List Nat).take 4) = some f ∧
        ∃ msg, f.parse (([1, 2, 3, 4] : List Nat).drop 4) = .error msg))) :=
  ⟨c8_decode_errors ⟨[witFn1, witFn2]⟩ witDecoder [7, 7, 7, 7] rfl
      (by intro f hf; simp at hf; rcases hf with h | h <;> subst h <;> rfl)
      witDecoder_msgs,
   c8_decode_errors ⟨[witFn1, witFn2]⟩ witDecoder [1, 2, 3, 4] rfl
      (by intro f hf; simp at hf; rcases hf with h | h <;> subst h <;> rfl)
      witDecoder_msgs⟩

/-
  Internal-tx indexer (internal_tx_indexer.py).

  One unit of work (process_element) covers one transaction hash: the
  traces fetched for it and the fetched parent transaction data.  The
  ledger tables touched here are EthereumTx (keyed by tx_hash), InternalTx
  (keyed by (tx_hash, trace_address)) and InternalTxDecoded (keyed by its
  InternalTx).  The method runs under transaction.atomic, so an escaping
  decoding error rolls the whole unit back.
-/

/-- Call type of a trace. -/
inductive CallType where
  | call
  | delegatecall
  | callcode
  | staticcall
deriving DecidableEq, Repr

/-- One trace of a transaction, as returned by trace_transaction. -/
structure Trace where
  trace_address : List Nat
  call_type : Option CallType
  from_addr : Addr
  to_addr : Addr
  value : Nat
  data : List Nat
deriving DecidableEq, Repr

/-- A stored EthereumTx row: primary key tx_hash plus the fetched
transaction fields, collapsed into one payload value. -/
structure EthereumTxRow where
  tx_hash : Nat
  payload : Nat
deriving DecidableEq, Repr

/-- A stored InternalTx row. -/
structure InternalTxRow where
  tx_hash : Nat
  trace_address : List Nat
  call_type : Option CallType
  from_addr : Addr
  to_addr : Addr
  value : Nat
  data : List Nat
deriving DecidableEq, Repr

/-- A stored InternalTxDecoded row, keyed by its InternalTx. -/
structure DecodedRow where
  tx_hash : Nat
  trace_address : List Nat
  function_name : String
  arguments : Args
deriving DecidableEq, Repr

/-- The slice of the ledger the internal-tx indexer writes. -/
structure ILedger where
  ethereum_txs : List EthereumTxRow
  internal_txs : List InternalTxRow
  internal_txs_decoded : List DecodedRow
deriving DecidableEq, Repr

/-- The fetched chain data for one transaction hash: tx fields and the
full trace list returned by trace_transaction. -/
structure TxHashElement where
  tx_hash : Nat
  tx_payload : Nat
  traces : List Trace
deriving DecidableEq, Repr

/-- The InternalTx row built from a trace of the given transaction. -/
def mkInternalTxRow (h : Nat) (t : Trace) : InternalTxRow :=
  ⟨h, t.trace_address, t.call_type, t.from_addr, t.to_addr, t.value, t.data⟩

/-- Modelled from the spec: InternalTx.can_be_decoded, absent from src/
(models.py).  An InternalTx is decodable iff its call_type is CALL or
DELEGATECALL and its data is non-empty. -/
def can_be_decoded (r : InternalTxRow) : Bool :=
  (r.call_type = some .call ∨ r.call_type = some .delegatecall) ∧ r.data ≠ []

/-- Does an EthereumTx row with this hash exist. -/
def containsEthTx : List EthereumTxRow → Nat → Bool
  | [], _ => false
  | r :: rs, h => if r.tx_hash = h then true else containsEthTx rs h

/-- Modelled from the spec: EthereumTx.objects.create_or_update_from_tx_hash,
absent from src/ (models.py).  Upserts the transaction row for the hash
with the freshly fetched fields. -/
def create_or_update_from_tx_hash (rows : List EthereumTxRow) (h p : Nat) :
    List EthereumTxRow :=
  if containsEthTx rows h then
    rows.map (fun r => if r.tx_hash = h then ⟨h, p⟩ else r)
  else rows ++ [⟨h, p⟩]

/-- Does an InternalTx row with this (tx_hash, trace_address) key exist. -/
def containsInternalTx : List InternalTxRow → Nat → List Nat → Bool
  | [], _, _ => false
  | r :: rs, h, ta =>
    if r.tx_hash = h ∧ r.trace_address = ta then true else containsInternalTx rs h ta

/-- Does an InternalTxDecoded row for this internal tx exist. -/
def containsDecoded : List DecodedRow → Nat → List Nat → Bool
  | [], _, _ => false
  | r :: rs, h, ta =>
    if r.tx_hash = h ∧ r.trace_address = ta then true else containsDecoded rs h ta

/-- InternalTxIndexer._process_trace: get-or-create the InternalTx from
the trace (modelled from the spec: deduplicated on (tx_hash,
trace_address)); when it was created and is decodable, decode its data
and get-or-create the InternalTxDecoded row; CannotDecode is swallowed,
UnexpectedProblemDecoding escapes. -/
def process_trace (dec : TxDecoderModel) (h : Nat) (l : ILedger) (t : Trace) :
    Except Unit ILedger :=
  if containsInternalTx l.internal_txs h t.trace_address then .ok l
  else
    let row := mkInternalTxRow h t
    let l1 : ILedger := { l with internal_txs := l.internal_txs ++ [row] }
    if can_be_decoded row then
      match decode_transaction dec t.data with
      | .ok (fn, args) =>
        .ok { l1 with internal_txs_decoded :=
          if containsDecoded l1.internal_txs_decoded h t.trace_address then
            l1.internal_txs_decoded
          else l1.internal_txs_decoded ++ [⟨h, t.trace_address, fn, args⟩] }
      | .error .cannotDecode => .ok l1
      | .error .unexpectedProblemDecoding => .error ()
    else .ok l1

/-- Process the traces of one transaction in order, stopping at the first
escaping error. -/
def process_traces (dec : TxDecoderModel) (h : Nat) :
    ILedger → List Trace → Except Unit ILedger
  | l, [] => .ok l
  | l, t :: ts =>
    match process_trace dec h l t with
    | .ok l1 => process_traces dec h l1 ts
    | .error e => .error e

/-- InternalTxIndexer.process_element: upsert the parent EthereumTx, then
process every trace of the transaction. -/
def process_element (dec : TxDecoderModel) (l : ILedger) (e : TxHashElement) :
    Except Unit ILedger :=
  let l1 : ILedger :=
    { l with ethereum_txs := create_or_update_from_tx_hash l.ethereum_txs e.tx_hash e.tx_payload }
  process_traces dec e.tx_hash l1 e.traces

/-- The observable effect of process_element under transaction.atomic: an
escaping error rolls the unit of work back, leaving the ledger as it was. -/
def run_process_element (dec : TxDecoderModel) (l : ILedger) (e : TxHashElement) : ILedger :=
  match process_element dec l e with
  | .ok l1 => l1
  | .error _ => l

lemma containsInternalTx_append (xs ys : List InternalTxRow) (h : Nat) (ta : List Nat) :
    containsInternalTx (xs ++ ys) h ta =
      (containsInternalTx xs h ta || containsInternalTx ys h ta) := by
  induction xs with
  | nil => simp [containsInternalTx]
  | cons r rs ih =>
    by_cases hr : r.tx_hash = h ∧ r.trace_address = ta
    · simp [containsInternalTx, hr]
    · simp [containsInternalTx, hr, ih]

lemma process_trace_ok_shape {dec : TxDecoderModel} {h : Nat} {l l1 : ILedger} {t : Trace}
    (h0 : process_trace dec h l t = .ok l1) :
    (l1.internal_txs = l.internal_txs ∨
      l1.internal_txs = l.internal_txs ++ [mkInternalTxRow h t]) ∧
    l1.ethereum_txs = l.ethereum_txs := by
  unfold process_trace at h0
  by_cases hc : containsInternalTx l.internal_txs h t.trace_address
  · simp [hc] at h0
    subst h0
    exact ⟨Or.inl rfl, rfl⟩
  · simp [hc] at h0
    by_cases hd : can_be_decoded (mkInternalTxRow h t)
    · simp [hd] at h0
      cases he : decode_transaction dec t.data with
      | ok v =>
        rw [he] at h0
        cases h0
        exact ⟨Or.inr rfl, rfl⟩
      | error err =>
        rw [he] at h0
        cases err with
        | cannotDecode =>
          cases h0
          exact ⟨Or.inr rfl, rfl⟩
        | unexpectedProblemDecoding => cases h0
    · simp [hd] at h0
      cases h0
      exact ⟨Or.inr rfl, rfl⟩

lemma process_trace_contains_self {dec : TxDecoderModel} {h : Nat} {l l1 : ILedger} {t : Trace}
    (h0 : process_trace dec h l t = .ok l1) :
    containsInternalTx l1.internal_txs h t.trace_address = true := by
  by_cases hc : containsInternalTx l.internal_txs h t.trace_address
  · unfold process_trace at h0
    simp [hc] at h0
    subst h0
    exact hc
  · rcases (process_trace_ok_shape h0).1 with hs | hs
    · unfold process_trace at h0
      simp [hc] at h0
      by_cases hd : can_be_decoded (mkInternalTxRow h t)
      · simp [hd] at h0
        cases he : decode_transaction dec t.data with
        | ok v =>
          rw [he] at h0
          cases h0
          simp at hs
        | error err =>
          rw [he] at h0
          cases err with
          | cannotDecode =>
            cases h0
            simp at hs
          | unexpectedProblemDecoding => cases h0
      · simp [hd] at h0
        cases h0
        simp at hs
    · rw [hs, containsInternalTx_append]
      simp [containsInternalTx, mkInternalTxRow]

lemma process_trace_contains_mono {dec : TxDecoderModel} {h h2 : Nat} {l l1 : ILedger}
    {t : Trace} {ta : List Nat}
    (h0 : process_trace dec h l t = .ok l1)
    (hc : containsInternalTx l.internal_txs h2 ta = true) :
    containsInternalTx l1.internal_txs h2 ta = true := by
  rcases (process_trace_ok_shape h0).1 with hs | hs
  · rw [hs]; exact hc
  · rw [hs, containsInternalTx_append, hc]
    rfl

lemma process_traces_contains_mono {dec : TxDecoderModel} {h h2 : Nat} {ta : List Nat} :
    ∀ {l l2 : ILedger} {ts : List Trace},
      process_traces dec h l ts = .ok l2 →
      containsInternalTx l.internal_txs h2 ta = true →
      containsInternalTx l2.internal_txs h2 ta = true := by
  intro l l2 ts
  induction ts generalizing l with
  | nil => intro hrun hc; cases hrun; exact hc
  | cons t0 rest ih =>
    intro hrun hc
    unfold process_traces at hrun
    cases h0 : process_trace dec h l t0 with
    | error e => rw [h0] at hrun; cases hrun
    | ok l1 =>
      rw [h0] at hrun
      exact ih hrun (process_trace_contains_mono h0 hc)

lemma process_traces_contains {dec : TxDecoderModel} {h : Nat} :
    ∀ {l l2 : ILedger} {ts : List Trace},
      process_traces dec h l ts = .ok l2 →
      ∀ t ∈ ts, containsInternalTx l2.internal_txs h t.trace_address = true := by
  intro l l2 ts
  induction ts generalizing l with
  | nil => intro _ t ht; cases ht
  | cons t0 rest ih =>
    intro hrun t ht
    unfold process_traces at hrun
    cases h0 : process_trace dec h l t0 with
    | error e => rw [h0] at hrun; cases hrun
    | ok l1 =>
      rw [h0] at hrun
      rcases List.mem_cons.mp ht with h1 | h1
      · subst h1
        exact process_traces_contains_mono hrun (process_trace_contains_self h0)
      · exact ih hrun t h1

lemma process_traces_of_contains_all {dec : TxDecoderModel} {h : Nat} :
    ∀ {l : ILedger} {ts : List Trace},
      (∀ t ∈ ts, containsInternalTx l.internal_txs h t.trace_address = true) →
      process_traces dec h l ts = .ok l := by
  intro l ts
  induction ts with
  | nil => intro _; rfl
  | cons t0 rest ih =>
    intro hall
    have h0 : process_trace dec h l t0 = .ok l := by
      unfold process_trace
      simp [hall t0 (List.mem_cons_self _ _)]
    unfold process_traces
    rw [h0]
    exact ih (fun t ht => hall t (List.mem_cons_of_mem _ ht))

lemma process_traces_eth {dec : TxDecoderModel} {h : Nat} :
    ∀ {l l2 : ILedger} {ts : List Trace},
      process_traces dec h l ts = .ok l2 → l2.ethereum_txs = l.ethereum_txs := by
  intro l l2 ts
  induction ts generalizing l with
  | nil => intro hrun; cases hrun; rfl
  | cons t0 rest ih =>
    intro hrun
    unfold process_traces at hrun
    cases h0 : process_trace dec h l t0 with
    | error e => rw [h0] at hrun; cases hrun
    | ok l1 =>
      rw [h0] at hrun
      rw [ih hrun, (process_trace_ok_shape h0).2]

lemma containsEthTx_false_forall {rows : List EthereumTxRow} {h : Nat}
    (hc : containsEthTx rows h = false) : ∀ r ∈ rows, r.tx_hash ≠ h := by
  induction rows with
  | nil => intro r hr; cases hr
  | cons r0 rs ih =>
    intro r hr
    unfold containsEthTx at hc
    by_cases h0 : r0.tx_hash = h
    · simp [h0] at hc
    · simp [h0] at hc
      rcases List.mem_cons.mp hr with h1 | h1
      · subst h1; exact h0
      · exact ih hc r h1

lemma containsEthTx_map_update {rows : List EthereumTxRow} {h p : Nat}
    (hc : containsEthTx rows h = true) :
    containsEthTx (rows.map (fun r => if r.tx_hash = h then ⟨h, p⟩ else r)) h = true := by
  induction rows with
  | nil => cases hc
  | cons r0 rs ih =>
    unfold containsEthTx at hc
    by_cases h0 : r0.tx_hash = h
    · simp [containsEthTx, h0]
    · simp [h0] at hc
      simp [containsEthTx, h0]
      exact ih hc

lemma containsEthTx_append_new (rows : List EthereumTxRow) (h p : Nat) :
    containsEthTx (rows ++ [⟨h, p⟩]) h = true := by
  induction rows with
  | nil => simp [containsEthTx]
  | cons r0 rs ih =>
    by_cases h0 : r0.tx_hash = h
    · simp [containsEthTx, h0]
    · simp [containsEthTx, h0]
      exact ih

lemma map_update_idem (rows : List EthereumTxRow) (h p : Nat) :
    (rows.map (fun r => if r.tx_hash = h then ⟨h, p⟩ else r)).map
      (fun r => if r.tx_hash = h then (⟨h, p⟩ : EthereumTxRow) else r) =
    rows.map (fun r => if r.tx_hash = h then ⟨h, p⟩ else r) := by
  induction rows with
  | nil => rfl
  | cons r rs ih =>
    by_cases h1 : r.tx_hash = h <;> simp [h1, ih]

lemma map_update_of_not_contains {rows : List EthereumTxRow} {h : Nat} (p : Nat)
    (hc : containsEthTx rows h = false) :
    rows.map (fun r => if r.tx_hash = h then (⟨h, p⟩ : EthereumTxRow) else r) = rows := by
  induction rows with
  | nil => rfl
  | cons r rs ih =>
    unfold containsEthTx at hc
    by_cases h1 : r.tx_hash = h
    · simp [h1] at hc
    · simp [h1] at hc
      simp [h1, ih hc]

lemma create_or_update_idem (rows : List EthereumTxRow) (h p : Nat) :
    create_or_update_from_tx_hash (create_or_update_from_tx_hash rows h p) h p =
      create_or_update_from_tx_hash rows h p := by
  by_cases hc : containsEthTx rows h = true
  · unfold create_or_update_from_tx_hash
    rw [if_pos hc, if_pos (containsEthTx_map_update hc)]
    exact map_update_idem rows h p
  · have hc2 : containsEthTx rows h = false := by
      cases hcc : containsEthTx rows h
      · rfl
      · exact absurd hcc hc
    have hinner : create_or_update_from_tx_hash rows h p = rows ++ [⟨h, p⟩] := by
      unfold create_or_update_from_tx_hash
      rw [if_neg (by simp [hc2])]
    rw [hinner]
    unfold create_or_update_from_tx_hash
    rw [if_pos (containsEthTx_append_new rows h p)]
    rw [List.map_append, map_update_of_not_contains p hc2]
    simp

lemma process_element_ok_again {dec : TxDecoderModel} {l l2 : ILedger} {e : TxHashElement}
    (h1 : process_element dec l e = .ok l2) : process_element dec l2 e = .ok l2 := by
  unfold process_element at h1 ⊢
  have heth : l2.ethereum_txs = create_or_update_from_tx_hash l.ethereum_txs e.tx_hash e.tx_payload :=
    process_traces_eth h1
  have hupd : create_or_update_from_tx_hash l2.ethereum_txs e.tx_hash e.tx_payload = l2.ethereum_txs := by
    rw [heth, create_or_update_idem]
  have hled : ({ l2 with ethereum_txs := create_or_update_from_tx_hash l2.ethereum_txs e.tx_hash e.tx_payload } : ILedger) = l2 := by
    rw [hupd]
  rw [hled]
  apply process_traces_of_contains_all
  intro t ht
  exact process_traces_contains h1 t ht

/-- C7: running the internal-tx indexer's process_element twice on the
same transaction hash (the same fetched trace data) leaves the ledger in
the same state as running it once: no duplicate EthereumTx, InternalTx or
InternalTxDecoded rows are created and rows stored by the first run are
not mutated. -/
theorem c7_process_element_idempotent (dec : TxDecoderModel) (l : ILedger) (e : TxHashElement) :
    run_process_element dec (run_process_element dec l e) e = run_process_element dec l e := by
  unfold run_process_element
  cases h1 : process_element dec l e with
  | ok l2 => rw [process_element_ok_again h1]
  | error err => rw [h1]

lemma process_traces_error_of_unexpected {dec : TxDecoderModel} {h : Nat} {t : Trace}
    (hdec : can_be_decoded (mkInternalTxRow h t) = true)
    (herr : decode_transaction dec t.data = .error .unexpectedProblemDecoding) :
    ∀ {l : ILedger} {ts : List Trace}, t ∈ ts →
      (ts.map Trace.trace_address).Nodup →
      containsInternalTx l.internal_txs h t.trace_address = false →
      process_traces dec h l ts = .error () := by
  intro l ts
  induction ts generalizing l with
  | nil => intro ht; cases ht
  | cons t0 rest ih =>
    intro ht hnodup hfresh
    rcases List.mem_cons.mp ht with h1 | h1
    · subst h1
      unfold process_traces process_trace
      simp [hfresh, hdec, herr]
    · have hta : t.trace_address ≠ t0.trace_address := by
        intro hEq
        have h2 : t0.trace_address ∉ rest.map Trace.trace_address :=
          (List.nodup_cons.mp (by simpa using hnodup)).1
        exact h2 (hEq ▸ List.mem_map_of_mem Trace.trace_address h1)
      unfold process_traces
      cases h0 : process_trace dec h l t0 with
      | error e2 => rfl
      | ok l1 =>
        have hfresh1 : containsInternalTx l1.internal_txs h t.trace_address = false := by
          rcases (process_trace_ok_shape h0).1 with hs | hs
          · rw [hs]; exact hfresh
          · rw [hs, containsInternalTx_append, hfresh]
            simp [containsInternalTx, mkInternalTxRow, Ne.symm hta]
        exact ih h1 (by simpa using (List.nodup_cons.mp (by simpa using hnodup)).2) hfresh1

/-- C6: while indexing the traces of one transaction hash, a decodable
trace whose data raises UnexpectedProblemDecoding makes the whole unit of
work roll back, so no EthereumTx, InternalTx or InternalTxDecoded row
from it is persisted; a CannotDecode failure instead stores the
InternalTx row and only omits its InternalTxDecoded row. -/
theorem c6_decode_failure_handling
    (dec : TxDecoderModel) (l : ILedger) (e : TxHashElement) (t : Trace)
    (ht : t ∈ e.traces)
    (hnodup : (e.traces.map Trace.trace_address).Nodup)
    (hfresh : containsInternalTx l.internal_txs e.tx_hash t.trace_address = false)
    (hdec : can_be_decoded (mkInternalTxRow e.tx_hash t) = true)
    (herr : decode_transaction dec t.data = .error .unexpectedProblemDecoding)
    (lu : ILedger) (hu : Nat) (u : Trace)
    (hufresh : containsInternalTx lu.internal_txs hu u.trace_address = false)
    (hudec : can_be_decoded (mkInternalTxRow hu u) = true)
    (huerr : decode_transaction dec u.data = .error .cannotDecode) :
    run_process_element dec l e = l ∧
    process_trace dec hu lu u =
      .ok { lu with internal_txs := lu.internal_txs ++ [mkInternalTxRow hu u] } := by
  constructor
  · have herrall : process_element dec l e = .error () := by
      unfold process_element
      exact process_traces_error_of_unexpected hdec herr ht hnodup hfresh
    unfold run_process_element
    rw [herrall]
  · unfold process_trace
    simp [hufresh, hudec, huerr]

/-- Witness trace whose data matches witFn1 but fails argument parsing
(UnexpectedProblemDecoding). -/
def witTraceT : Trace := ⟨[0], some .call, 5, 6, 0, [1, 2, 3, 4]⟩

/-- Witness trace whose data matches no selector (CannotDecode). -/
def witTraceU : Trace := ⟨[1], some .call, 5, 6, 0, [7, 7, 7, 7]⟩

/-- Witness for C6: a one-trace element whose decodable trace raises the
unexpected decoding error leaves the empty ledger empty, while a
CannotDecode trace stores only its InternalTx row. -/
theorem c6_decode_failure_handling_witness :
    run_process_element witDecoder ⟨[], [], []⟩ ⟨100, 1, [witTraceT]⟩ = ⟨[], [], []⟩ ∧
    process_trace witDecoder 200 ⟨[], [], []⟩ witTraceU =
      .ok { (⟨[], [], []⟩ : ILedger) with
        internal_txs := ([] : List InternalTxRow) ++ [mkInternalTxRow 200 witTraceU] } :=
  c6_decode_failure_handling witDecoder ⟨[], [], []⟩ ⟨100, 1, [witTraceT]⟩ witTraceT
    (by decide) (by decide) (by decide) (by decide) (by rfl)
    ⟨[], [], []⟩ 200 witTraceU (by decide) (by decide) (by rfl)

/-
  State-machine processor (tx_processor.py).

  SafeTxProcessor.process_decoded_transaction consumes one
  InternalTxDecoded and updates the derived tables.  External collaborators
  are parameters: the EIP-712 hash of a SafeTx (gnosis-py), the
  receipt-scanning is_failed check (an RPC read), and
  SafeSignature.parse_signatures (pure signature recovery), bundled in a
  ProcEnv.  The whole step runs under transaction.atomic.
-/

/-- The parent EthereumTx of an internal tx as the processor sees it. -/
structure EthereumTxRef where
  tx_hash : Nat
  block_id : Nat
deriving DecidableEq, Repr

/-- The InternalTx row an InternalTxDecoded points at.  prev_trace_from is
the from-address of the previous trace, used by the approveHash branch
(modelled from the spec: get_previous_trace is absent from src/). -/
structure InternalTxRef where
  from_addr : Addr
  to_addr : Addr
  ethereum_tx : EthereumTxRef
  trace_address : List Nat
  prev_trace_from : Option Addr
deriving DecidableEq, Repr

/-- An InternalTxDecoded row handed to the processor. -/
structure InternalTxDecoded where
  function_name : String
  arguments : Args
  internal_tx : InternalTxRef
deriving DecidableEq, Repr

/-- A SafeContract row: discovered wallet with its creation tx and the
erc20 indexer cursor start. -/
structure SafeContract where
  address : Addr
  ethereum_tx : Nat
  erc20_block_number : Nat
deriving DecidableEq, Repr

/-- A SafeStatus snapshot row. -/
structure SafeStatus where
  internal_tx : InternalTxRef
  address : Addr
  owners : List Addr
  threshold : Nat
  nonce : Nat
  master_copy : Addr
deriving DecidableEq, Repr

/-- A MultisigTransaction row, keyed by safe_tx_hash. -/
structure MultisigTransaction where
  safe_tx_hash : Nat
  safe : Addr
  ethereum_tx : Option Nat
  to_addr : Addr
  value : Nat
  data : Option (List Nat)
  operation : Nat
  safe_tx_gas : Nat
  base_gas : Nat
  gas_price : Nat
  gas_token : Addr
  refund_receiver : Addr
  nonce : Nat
  signatures : Option (List Nat)
  failed : Option Bool
deriving DecidableEq, Repr

/-- A MultisigConfirmation row, unique on (multisig_transaction_hash,
owner). -/
structure MultisigConfirmation where
  multisig_transaction_hash : Nat
  owner : Addr
  ethereum_tx : Option Nat
  multisig_transaction : Option Nat
  signature : Option (List Nat)
deriving DecidableEq, Repr

/-- The slice of the ledger the processor reads and writes. -/
structure Ledger where
  safe_contracts : List SafeContract
  safe_statuses : List SafeStatus
  multisig_transactions : List MultisigTransaction
  multisig_confirmations : List MultisigConfirmation
deriving DecidableEq, Repr

/-- The in-memory SafeTx built in the execTransaction branch; the EIP-712
digest is computed from exactly these fields. -/
structure SafeTxData where
  safe : Addr
  to_addr : Addr
  value : Nat
  data : List Nat
  operation : Nat
  safe_tx_gas : Nat
  base_gas : Nat
  gas_price : Nat
  gas_token : Addr
  refund_receiver : Addr
  signatures : List Nat
  safe_nonce : Nat
  safe_version : String
deriving DecidableEq, Repr

/-- External collaborators of the processor: the EIP-712 safe_tx_hash
(gnosis-py SafeTx.safe_tx_hash), the receipt scan for
ExecutionFailed/ExecutionFailure events (SafeTxProcessor.is_failed, an
RPC read keyed by tx hash and safe tx hash), and signature recovery
(SafeSignature.parse_signatures, returning owner/signature pairs). -/
structure ProcEnv where
  safeTxHash : SafeTxData → Nat
  isFailed : Nat → Nat → Bool
  parseSignatures : List Nat → Nat → List (Addr × List Nat)

/-- Modelled from the spec: SafeStatus.objects.last_for_address, absent
from src/ (models.py).  SafeStatus is an append-only log consumed in
chain order, so the snapshot with the greatest ordering tuple for an
address is the last row stored for it. -/
def last_for_address : List SafeStatus → Addr → Option SafeStatus
  | [], _ => none
  | r :: rs, a =>
    match last_for_address rs a with
    | some x => some x
    | none => if r.address = a then some r else none

/-- Modelled from the spec: SafeStatus.store_new(internal_tx), absent from
src/ (models.py).  Appends the mutated status as a new snapshot keyed by
the causing internal tx. -/
def store_new (l : Ledger) (itx : InternalTxRef) (ss : SafeStatus) : Ledger :=
  { l with safe_statuses := l.safe_statuses ++ [{ ss with internal_tx := itx }] }

/-- Python list.remove(x): drop the first occurrence, none when absent
(ValueError). -/
def removeFirstOcc : List Addr → Addr → Option (List Addr)
  | [], _ => none
  | x :: xs, a =>
    if x = a then some xs else (removeFirstOcc xs a).map (fun ys => x :: ys)

/-- Does a SafeContract row for the address exist. -/
def containsContract : List SafeContract → Addr → Bool
  | [], _ => false
  | r :: rs, a => if r.address = a then true else containsContract rs a

/-- Find the MultisigTransaction with this safe_tx_hash. -/
def findMultisigTx : List MultisigTransaction → Nat → Option MultisigTransaction
  | [], _ => none
  | r :: rs, h => if r.safe_tx_hash = h then some r else findMultisigTx rs h

/-- Find the MultisigConfirmation with this (hash, owner) key. -/
def findConfirmation : List MultisigConfirmation → Nat → Addr → Option MultisigConfirmation
  | [], _, _ => none
  | r :: rs, h, o =>
    if r.multisig_transaction_hash = h ∧ r.owner = o then some r
    else findConfirmation rs h o

/-- Fill ethereum_tx, failed and signatures on the row with this hash
(multisig_tx.save(update_fields=[ethereum_tx, failed, signatures])). -/
def fillMultisigTx (rows : List MultisigTransaction) (h : Nat) (eth : Nat)
    (failed : Bool) (sigs : List Nat) : List MultisigTransaction :=
  rows.map (fun m =>
    if m.safe_tx_hash = h then
      { m with ethereum_tx := some eth, failed := some failed, signatures := some sigs }
    else m)

/-- Overwrite the stored signature on the confirmation with this key
(multisig_confirmation.save(update_fields=[signature])). -/
def setConfirmationSignature (rows : List MultisigConfirmation) (h : Nat) (o : Addr)
    (sig : List Nat) : List MultisigConfirmation :=
  rows.map (fun c =>
    if c.multisig_transaction_hash = h ∧ c.owner = o then
      { c with signature := some sig }
    else c)

/-- One iteration of the signature loop of the execTransaction branch:
get-or-create the confirmation for (safe_tx_hash, owner) and overwrite
its signature when it differs. -/
def applyOneSignature (rows : List MultisigConfirmation) (h : Nat) (owner : Addr)
    (sig : List Nat) : List MultisigConfirmation :=
  match findConfirmation rows h owner with
  | none => rows ++ [⟨h, owner, none, some h, some sig⟩]
  | some c =>
    if c.signature ≠ some sig then setConfirmationSignature rows h owner sig
    else rows

/-- The signature loop of the execTransaction branch. -/
def applySignatures (rows : List MultisigConfirmation) (h : Nat)
    (pairs : List (Addr × List Nat)) : List MultisigConfirmation :=
  pairs.foldl (fun acc p => applyOneSignature acc h p.1 p.2) rows

/-- The arguments the execTransaction branch reads, after version
detection: presence of baseGas means v1.0.0, else dataGas means v0.0.1. -/
structure ExecArgs where
  to_addr : Addr
  value : Nat
  data : List Nat
  operation : Nat
  safe_tx_gas : Nat
  base_gas : Nat
  safe_version : String
  gas_price : Nat
  gas_token : Addr
  refund_receiver : Addr
  signatures : List Nat
deriving DecidableEq, Repr

/-- Read every argument of an execTransaction invocation, raising the
first extraction error like the source's dict accesses do. -/
def readExecArgs (args : Args) : Except PyErr ExecArgs := do
  let bg ← if hasKey args "baseGas" then
      (getNum args "baseGas").map (fun b => (b, "1.0.0"))
    else
      (getNum args "dataGas").map (fun b => (b, "0.0.1"))
  let to_a ← getAddr args "to"
  let value ← getNum args "value"
  let data ← getBytes args "data"
  let operation ← getNum args "operation"
  let safe_tx_gas ← getNum args "safeTxGas"
  let gas_price ← getNum args "gasPrice"
  let gas_token ← getAddr args "gasToken"
  let refund_receiver ← getAddr args "refundReceiver"
  let signatures ← getBytes args "signatures"
  pure ⟨to_a, value, data, operation, safe_tx_gas, bg.1, bg.2, gas_price,
        gas_token, refund_receiver, signatures⟩

/-- The SafeTx the execTransaction branch builds: the wallet address, the
decoded arguments, and the wallet's current nonce. -/
def mkSafeTx (safe : Addr) (ea : ExecArgs) (nonce : Nat) : SafeTxData :=
  ⟨safe, ea.to_addr, ea.value, ea.data, ea.operation, ea.safe_tx_gas,
   ea.base_gas, ea.gas_price, ea.gas_token, ea.refund_receiver,
   ea.signatures, nonce, ea.safe_version⟩

/-- The setup branch: get-or-create the SafeContract (defaults taken from
the causing internal tx only on creation) and insert the first SafeStatus
with nonce 0 and the caller's delegatecall target as master copy. -/
def setupBranch (l : Ledger) (d : InternalTxDecoded) : Except PyErr (Ledger × Bool) :=
  match getAddrList d.arguments "_owners" with
  | .error e => .error e
  | .ok owners =>
    match getNum d.arguments "_threshold" with
    | .error e => .error e
    | .ok threshold =>
      let itx := d.internal_tx
      let contracts :=
        if containsContract l.safe_contracts itx.from_addr then l.safe_contracts
        else l.safe_contracts ++
          [⟨itx.from_addr, itx.ethereum_tx.tx_hash, itx.ethereum_tx.block_id⟩]
      let row : SafeStatus := ⟨itx, itx.from_addr, owners, threshold, 0, itx.to_addr⟩
      .ok ({ l with safe_contracts := contracts,
                    safe_statuses := l.safe_statuses ++ [row] }, true)

/-- The addOwnerWithThreshold / removeOwner / removeOwnerWithThreshold
branch: set the threshold, append or list-remove the owner — a remove of
a missing owner raises ValueError which is caught and logged, leaving the
owner list unchanged — then store the new snapshot. -/
def ownerBranch (l : Ledger) (d : InternalTxDecoded) : Except PyErr (Ledger × Bool) :=
  match last_for_address l.safe_statuses d.internal_tx.from_addr with
  | none => .error .attributeError
  | some ss =>
    match getNum d.arguments "_threshold", getAddr d.arguments "owner" with
    | .error e, _ => .error e
    | .ok _, .error e => .error e
    | .ok threshold, .ok owner =>
      let owners :=
        if d.function_name = "addOwnerWithThreshold" then ss.owners ++ [owner]
        else
          match removeFirstOcc ss.owners owner with
          | some rest => rest
          | none => ss.owners
      .ok (store_new l d.internal_tx
            { ss with owners := owners, threshold := threshold }, true)

/-- The swapOwner branch: list-remove the old owner — here the ValueError
of a missing owner is NOT caught — then append the new owner and store
the new snapshot. -/
def swapOwnerBranch (l : Ledger) (d : InternalTxDecoded) : Except PyErr (Ledger × Bool) :=
  match getAddr d.arguments "oldOwner", getAddr d.arguments "newOwner" with
  | .error e, _ => .error e
  | .ok _, .error e => .error e
  | .ok old_owner, .ok new_owner =>
    match last_for_address l.safe_statuses d.internal_tx.from_addr with
    | none => .error .attributeError
    | some ss =>
      match removeFirstOcc ss.owners old_owner with
      | none => .error .valueError
      | some rest =>
        .ok (store_new l d.internal_tx { ss with owners := rest ++ [new_owner] }, true)

/-- The changeThreshold branch. -/
def changeThresholdBranch (l : Ledger) (d : InternalTxDecoded) : Except PyErr (Ledger × Bool) :=
  match last_for_address l.safe_statuses d.internal_tx.from_addr with
  | none => .error .attributeError
  | some ss =>
    match getNum d.arguments "_threshold" with
    | .error e => .error e
    | .ok threshold =>
      .ok (store_new l d.internal_tx { ss with threshold := threshold }, true)

/-- The changeMasterCopy branch. -/
def changeMasterCopyBranch (l : Ledger) (d : InternalTxDecoded) : Except PyErr (Ledger × Bool) :=
  match last_for_address l.safe_statuses d.internal_tx.from_addr with
  | none => .error .attributeError
  | some ss =>
    match getAddr d.arguments "_masterCopy" with
    | .error e => .error e
    | .ok mc =>
      .ok (store_new l d.internal_tx { ss with master_copy := mc }, true)

/-- The approveHash branch: get-or-create the confirmation keyed by
(hashToApprove, previous trace from-address) and back-fill its
ethereum_tx when missing. -/
def approveHashBranch (l : Ledger) (d : InternalTxDecoded) : Except PyErr (Ledger × Bool) :=
  match getNum d.arguments "hashToApprove" with
  | .error e => .error e
  | .ok h =>
    match d.internal_tx.prev_trace_from with
    | none => .error .attributeError
    | some owner =>
      let eth := d.internal_tx.ethereum_tx.tx_hash
      match findConfirmation l.multisig_confirmations h owner with
      | none =>
        .ok ({ l with multisig_confirmations :=
          l.multisig_confirmations ++ [⟨h, owner, some eth, none, none⟩] }, true)
      | some c =>
        if c.ethereum_tx = none then
          .ok ({ l with multisig_confirmations :=
            l.multisig_confirmations.map (fun x =>
              if x.multisig_transaction_hash = h ∧ x.owner = owner then
                { x with ethereum_tx := some eth }
              else x) }, true)
        else .ok (l, true)

/-- The stale-row deletion of the execTransaction branch: drop every
MultisigTransaction sharing (ethereum_tx, nonce, safe) but carrying a
different safe_tx_hash. -/
def deleteStale (rows : List MultisigTransaction) (eth : Nat) (nonce : Nat)
    (safe : Addr) (h : Nat) : List MultisigTransaction :=
  rows.filter (fun m =>
    ¬(m.ethereum_tx = some eth ∧ m.nonce = nonce ∧ m.safe = safe ∧ m.safe_tx_hash ≠ h))

/-- The MultisigTransaction get-or-create of the execTransaction branch:
insert the full row when the hash is new; when the row exists without an
ethereum_tx, fill in ethereum_tx, failed and signatures; otherwise leave
it alone. -/
def upsertMultisigTx (rows : List MultisigTransaction) (h : Nat) (safe : Addr)
    (eth : Nat) (ea : ExecArgs) (nonce : Nat) (failed : Bool) :
    List MultisigTransaction :=
  match findMultisigTx rows h with
  | none => rows ++
    [⟨h, safe, some eth, ea.to_addr, ea.value,
      (if ea.data = [] then none else some ea.data), ea.operation,
      ea.safe_tx_gas, ea.base_gas, ea.gas_price, ea.gas_token,
      ea.refund_receiver, nonce, some ea.signatures, some failed⟩]
  | some m =>
    if m.ethereum_tx = none then fillMultisigTx rows h eth failed ea.signatures
    else rows

/-- The execTransaction branch: compute the safe_tx_hash at the wallet's
current nonce, delete stale rows sharing (ethereum_tx, nonce, safe) under
a different hash, upsert the MultisigTransaction, upsert a confirmation
per recovered signature, and store the snapshot with nonce+1. -/
def execTransactionBranch (env : ProcEnv) (l : Ledger) (d : InternalTxDecoded) :
    Except PyErr (Ledger × Bool) :=
  match last_for_address l.safe_statuses d.internal_tx.from_addr with
  | none => .error .attributeError
  | some ss =>
    match readExecArgs d.arguments with
    | .error e => .error e
    | .ok ea =>
      let nonce := ss.nonce
      let safe_tx := mkSafeTx d.internal_tx.from_addr ea nonce
      let safe_tx_hash := env.safeTxHash safe_tx
      let eth := d.internal_tx.ethereum_tx.tx_hash
      let ms1 := deleteStale l.multisig_transactions eth nonce
        d.internal_tx.from_addr safe_tx_hash
      let failed := env.isFailed eth safe_tx_hash
      let ms2 := upsertMultisigTx ms1 safe_tx_hash d.internal_tx.from_addr eth ea nonce failed
      let confs := applySignatures l.multisig_confirmations safe_tx_hash
        (env.parseSignatures ea.signatures safe_tx_hash)
      let l2 := { l with multisig_transactions := ms2, multisig_confirmations := confs }
      .ok (store_new l2 d.internal_tx { ss with nonce := nonce + 1 }, true)

/-- SafeTxProcessor.process_decoded_transaction: dispatch on the decoded
function name, as the source's if/elif chain does; unknown functions are
processed with success = false. -/
def process_decoded_transaction (env : ProcEnv) (l : Ledger) (d : InternalTxDecoded) :
    Except PyErr (Ledger × Bool) :=
  if d.function_name = "setup" ∧ d.internal_tx.from_addr ≠ 0 then setupBranch l d
  else if d.function_name = "addOwnerWithThreshold" ∨ d.function_name = "removeOwner" ∨
      d.function_name = "removeOwnerWithThreshold" then ownerBranch l d
  else if d.function_name = "swapOwner" then swapOwnerBranch l d
  else if d.function_name = "changeThreshold" then changeThresholdBranch l d
  else if d.function_name = "changeMasterCopy" then changeMasterCopyBranch l d
  else if d.function_name = "approveHash" then approveHashBranch l d
  else if d.function_name = "execTransaction" then execTransactionBranch env l d
  else if d.function_name = "execTransactionFromModule" then .ok (l, true)
  else .ok (l, false)

/-- Outcome of one processor step as the rest of the system sees it:
the ledger after commit or rollback, whether the InternalTxDecoded got
marked processed (set_processed runs only when no exception escaped), and
the returned success flag. -/
structure StepResult where
  ledger : Ledger
  processed : Bool
  success : Bool
deriving DecidableEq, Repr

/-- One processor step under transaction.atomic: an escaping exception
rolls everything back and leaves the invocation unprocessed. -/
def run_process_decoded (env : ProcEnv) (l : Ledger) (d : InternalTxDecoded) : StepResult :=
  match process_decoded_transaction env l d with
  | .ok (l2, s) => ⟨l2, true, s⟩
  | .error _ => ⟨l, false, false⟩

lemma removeFirstOcc_eq_none {xs : List Addr} {a : Addr} :
    removeFirstOcc xs a = none ↔ a ∉ xs := by
  induction xs with
  | nil => simp [removeFirstOcc]
  | cons x xs ih =>
    by_cases hx : x = a
    · simp [removeFirstOcc, hx]
    · simp [removeFirstOcc, hx, ih, Ne.symm hx]

lemma last_for_address_addr {rows : List SafeStatus} {a : Addr} {x : SafeStatus}
    (h : last_for_address rows a = some x) : x.address = a := by
  induction rows with
  | nil => cases h
  | cons r rs ih =>
    unfold last_for_address at h
    cases hr : last_for_address rs a with
    | some y =>
      rw [hr] at h
      cases h
      exact ih hr
    | none =>
      rw [hr] at h
      by_cases ha : r.address = a
      · simp [ha] at h
        subst h
        exact ha
      · simp [ha] at h

lemma dispatch_setup {env : ProcEnv} {l : Ledger} {d : InternalTxDecoded}
    (hfn : d.function_name = "setup") (hnz : d.internal_tx.from_addr ≠ 0) :
    process_decoded_transaction env l d = setupBranch l d := by
  unfold process_decoded_transaction
  rw [if_pos ⟨hfn, hnz⟩]

lemma dispatch_owner {env : ProcEnv} {l : Ledger} {d : InternalTxDecoded}
    (hfn : d.function_name = "addOwnerWithThreshold" ∨ d.function_name = "removeOwner" ∨
      d.function_name = "removeOwnerWithThreshold") :
    process_decoded_transaction env l d = ownerBranch l d := by
  unfold process_decoded_transaction
  rcases hfn with h | h | h <;>
    rw [if_neg (by rw [h]; simp), if_pos (by rw [h]; simp)]

lemma dispatch_swap {env : ProcEnv} {l : Ledger} {d : InternalTxDecoded}
    (hfn : d.function_name = "swapOwner") :
    process_decoded_transaction env l d = swapOwnerBranch l d := by
  unfold process_decoded_transaction
  rw [if_neg (by rw [hfn]; simp), if_neg (by rw [hfn]; simp), if_pos hfn]

lemma dispatch_exec {env : ProcEnv} {l : Ledger} {d : InternalTxDecoded}
    (hfn : d.function_name = "execTransaction") :
    process_decoded_transaction env l d = execTransactionBranch env l d := by
  unfold process_decoded_transaction
  rw [if_neg (by rw [hfn]; simp), if_neg (by rw [hfn]; simp),
      if_neg (by rw [hfn]; simp), if_neg (by rw [hfn]; simp),
      if_neg (by rw [hfn]; simp), if_neg (by rw [hfn]; simp), if_pos hfn]

/-- C10: when the processor handles a setup invocation for an address
that already has a SafeContract row, the SafeContract table is left
untouched: the defaults from the causing internal tx (ethereum_tx,
erc20_block_number) are applied only on creation. -/
theorem c10_setup_existing_contract_unchanged
    (env : ProcEnv) (l : Ledger) (d : InternalTxDecoded) (l2 : Ledger) (s : Bool)
    (hfn : d.function_name = "setup")
    (hnz : d.internal_tx.from_addr ≠ 0)
    (hexists : containsContract l.safe_contracts d.internal_tx.from_addr = true)
    (hrun : process_decoded_transaction env l d = .ok (l2, s)) :
    l2.safe_contracts = l.safe_contracts := by
  rw [dispatch_setup hfn hnz] at hrun
  unfold setupBranch at hrun
  cases ho : getAddrList d.arguments "_owners" with
  | error e => rw [ho] at hrun; cases hrun
  | ok owners =>
    rw [ho] at hrun
    cases ht : getNum d.arguments "_threshold" with
    | error e => rw [ht] at hrun; cases hrun
    | ok threshold =>
      rw [ht] at hrun
      injection hrun with h1
      injection h1 with hl hs
      rw [← hl]
      simp [hexists]

/-- Concrete environment for processor witnesses and counterexamples:
hash constantly 0, no failures, no recoverable signatures. -/
def zeroEnv : ProcEnv := ⟨fun _ => 0, fun _ _ => false, fun _ _ => []⟩

/-- Concrete internal tx used by processor witnesses, parameterized by
caller address and parent tx hash. -/
def witItx (a : Addr) (h : Nat) : InternalTxRef := ⟨a, 9, ⟨h, 40⟩, [0], none⟩

/-- Concrete ledger with one discovered Safe at address 5 and one
setup snapshot (owners 1 and 2, threshold 1, nonce 0). -/
def witLedger : Ledger :=
  ⟨[⟨5, 100, 40⟩], [⟨witItx 5 100, 5, [1, 2], 1, 0, 9⟩], [], []⟩

/-- Witness for C10: a second setup for address 5, which already has a
SafeContract row, leaves the SafeContract table unchanged. -/
theorem c10_setup_existing_contract_unchanged_witness :
    ((run_process_decoded zeroEnv witLedger
      ⟨"setup", [("_owners", .addrList [3]), ("_threshold", .num 1)], witItx 5 101⟩).ledger).safe_contracts =
      witLedger.safe_contracts :=
  c10_setup_existing_contract_unchanged zeroEnv witLedger
    ⟨"setup", [("_owners", .addrList [3]), ("_threshold", .num 1)], witItx 5 101⟩
    _ _ rfl (by decide) (by decide) rfl

/-- The owner replacement the specification describes for swapOwner:
oldOwner replaced by newOwner at the same position, every other owner
keeping its position. -/
def replacePreservingPosition (owners : List Addr) (old_o new_o : Addr) : List Addr :=
  owners.map (fun x => if x = old_o then new_o else x)

/-- Decoded swapOwner invocation used by the C5 counterexample: swaps
owner 1 (the first of two owners) for owner 3. -/
def c5cexDecoded : InternalTxDecoded :=
  ⟨"swapOwner", [("oldOwner", .addr 1), ("newOwner", .addr 3)], witItx 5 102⟩

/-- Counterexample for C5: the processor stores owners [2, 3] — the old
owner is list-removed and the new one appended at the end — while
replacement preserving position would give [3, 2]. -/
theorem c5_counterexample :
    (run_process_decoded zeroEnv witLedger c5cexDecoded).ledger.safe_statuses =
      witLedger.safe_statuses ++
        [⟨witItx 5 102, 5, [2, 3], 1, 0, 9⟩] ∧
    replacePreservingPosition [1, 2] 1 3 = [3, 2] ∧
    ([2, 3] : List Addr) ≠ [3, 2] := by decide

/-- C5 amended: processing swapOwner(prev, oldOwner, newOwner) stores a
new SafeStatus whose owners sequence equals the previous snapshot's
owners with the first occurrence of oldOwner removed (the remaining
owners keeping their relative order) and newOwner appended at the end;
threshold, nonce and master copy are carried over. -/
theorem c5_swap_owner_amended
    (env : ProcEnv) (l : Ledger) (d : InternalTxDecoded) (l2 : Ledger) (s : Bool)
    (ss : SafeStatus) (rest : List Addr) (old_o new_o : Addr)
    (hfn : d.function_name = "swapOwner")
    (hold : getAddr d.arguments "oldOwner" = .ok old_o)
    (hnew : getAddr d.arguments "newOwner" = .ok new_o)
    (hlast : last_for_address l.safe_statuses d.internal_tx.from_addr = some ss)
    (hrem : removeFirstOcc ss.owners old_o = some rest)
    (hrun : process_decoded_transaction env l d = .ok (l2, s)) :
    l2.safe_statuses = l.safe_statuses ++
      [{ ss with internal_tx := d.internal_tx, owners := rest ++ [new_o] }] := by
  rw [dispatch_swap hfn] at hrun
  simp only [swapOwnerBranch, hold, hnew, hlast, hrem] at hrun
  injection hrun with h1
  injection h1 with hl hs
  rw [← hl]
  rfl

/-- Witness for C5 amended: swapping owner 1 for owner 3 on owner list
[1, 2] stores owners [2, 3]. -/
theorem c5_swap_owner_amended_witness :
    (run_process_decoded zeroEnv witLedger c5cexDecoded).ledger.safe_statuses =
      witLedger.safe_statuses ++
        [{ (⟨witItx 5 100, 5, [1, 2], 1, 0, 9⟩ : SafeStatus) with
            internal_tx := c5cexDecoded.internal_tx, owners := [2] ++ [3] }] := by
  have h := c5_swap_owner_amended zeroEnv witLedger c5cexDecoded
    (run_process_decoded zeroEnv witLedger c5cexDecoded).ledger true
    ⟨witItx 5 100, 5, [1, 2], 1, 0, 9⟩ [2] 1 3
    rfl rfl rfl rfl rfl (by rfl)
  exact h

/-- Decoded swapOwner invocation naming old owner 4, which is not an
owner of the witness ledger's Safe: its last snapshot has owners [1, 2]. -/
def c4cexDecoded : InternalTxDecoded :=
  ⟨"swapOwner", [("oldOwner", .addr 4), ("newOwner", .addr 3)], witItx 5 103⟩

/-- Counterexample for C4: a swapOwner invocation naming an owner absent
from the owner set raises an uncaught ValueError: the step rolls back and
the invocation is NOT marked processed, contrary to the claim that every
such owner-list failure still marks the invocation processed. -/
theorem c4_counterexample :
    run_process_decoded zeroEnv witLedger c4cexDecoded = ⟨witLedger, false, false⟩ ∧
    c4cexDecoded.function_name = "swapOwner" ∧
    (last_for_address witLedger.safe_statuses 5).map SafeStatus.owners = some [1, 2] ∧
    (4 : Addr) ∉ ([1, 2] : List Addr) := by decide

/-- C4 amended: for removeOwner and removeOwnerWithThreshold naming an
owner that is not in the owner set, the ValueError is caught (and
logged): the step succeeds, the invocation is marked processed, and the
stored snapshot keeps the previous owner list (with the new threshold
applied); for swapOwner the same failure escapes and the invocation is
left unprocessed with the ledger rolled back. -/
theorem c4_owner_failure_handling
    (env : ProcEnv) (l : Ledger) (d : InternalTxDecoded)
    (ss : SafeStatus) (t : Nat) (o : Addr)
    (hfn : d.function_name = "removeOwner" ∨ d.function_name = "removeOwnerWithThreshold")
    (hlast : last_for_address l.safe_statuses d.internal_tx.from_addr = some ss)
    (hthr : getNum d.arguments "_threshold" = .ok t)
    (hown : getAddr d.arguments "owner" = .ok o)
    (hmiss : o ∉ ss.owners)
    (dsw : InternalTxDecoded) (ssw : SafeStatus) (osw_old osw_new : Addr)
    (hswfn : dsw.function_name = "swapOwner")
    (hswlast : last_for_address l.safe_statuses dsw.internal_tx.from_addr = some ssw)
    (hswold : getAddr dsw.arguments "oldOwner" = .ok osw_old)
    (hswnew : getAddr dsw.arguments "newOwner" = .ok osw_new)
    (hswmiss : osw_old ∉ ssw.owners) :
    run_process_decoded env l d =
      ⟨store_new l d.internal_tx { ss with threshold := t }, true, true⟩ ∧
    run_process_decoded env l dsw = ⟨l, false, false⟩ := by
  constructor
  · have hnotadd : ¬ d.function_name = "addOwnerWithThreshold" := by
      rcases hfn with h | h <;> rw [h] <;> decide
    have hrem : removeFirstOcc ss.owners o = none := removeFirstOcc_eq_none.mpr hmiss
    unfold run_process_decoded
    rw [dispatch_owner (Or.inr hfn)]
    simp [ownerBranch, hlast, hthr, hown, hnotadd, hrem, store_new]
  · have hrem : removeFirstOcc ssw.owners osw_old = none :=
      removeFirstOcc_eq_none.mpr hswmiss
    unfold run_process_decoded
    rw [dispatch_swap hswfn]
    simp [swapOwnerBranch, hswold, hswnew, hswlast, hrem]

/-- Witness for C4 amended: a removeOwner of absent owner 4 on the
witness ledger is processed successfully with owners kept, while the
swapOwner counterexample invocation is rolled back unprocessed. -/
theorem c4_owner_failure_handling_witness :
    run_process_decoded zeroEnv witLedger
        ⟨"removeOwner", [("_threshold", .num 1), ("owner", .addr 4)], witItx 5 104⟩ =
      ⟨store_new witLedger (witItx 5 104)
        { (⟨witItx 5 100, 5, [1, 2], 1, 0, 9⟩ : SafeStatus) with threshold := 1 }, true, true⟩ ∧
    run_process_decoded zeroEnv witLedger c4cexDecoded = ⟨witLedger, false, false⟩ :=
  c4_owner_failure_handling zeroEnv witLedger
    ⟨"removeOwner", [("_threshold", .num 1), ("owner", .addr 4)], witItx 5 104⟩
    ⟨witItx 5 100, 5, [1, 2], 1, 0, 9⟩ 1 4
    (Or.inl rfl) rfl rfl rfl (by decide)
    c4cexDecoded ⟨witItx 5 100, 5, [1, 2], 1, 0, 9⟩ 4 3
    rfl rfl rfl rfl (by decide)

/-- First setup invocation for the C1 counterexample run. -/
def c1D1 : InternalTxDecoded :=
  ⟨"setup", [("_owners", .addrList [1]), ("_threshold", .num 1)], witItx 5 100⟩

/-- execTransaction invocation for the C1 counterexample run (v0.0.1
shape: dataGas instead of baseGas). -/
def c1D2 : InternalTxDecoded :=
  ⟨"execTransaction",
   [("to", .addr 7), ("value", .num 0), ("data", .bytes []), ("operation", .num 0),
    ("safeTxGas", .num 0), ("dataGas", .num 0), ("gasPrice", .num 0),
    ("gasToken", .addr 0), ("refundReceiver", .addr 0), ("signatures", .bytes [])],
   witItx 5 101⟩

/-- Second setup invocation for the same address, after the nonce
advanced. -/
def c1D3 : InternalTxDecoded :=
  ⟨"setup", [("_owners", .addrList [1]), ("_threshold", .num 1)], witItx 5 102⟩

/-- Ledger after processing the first setup from an empty ledger. -/
def c1LedgerA : Ledger := (run_process_decoded zeroEnv ⟨[], [], [], []⟩ c1D1).ledger

/-- Ledger after additionally processing the execTransaction. -/
def c1LedgerB : Ledger := (run_process_decoded zeroEnv c1LedgerA c1D2).ledger

/-- Counterexample for C1: after setup and execTransaction the last
snapshot for address 5 has nonce 1, yet a second setup invocation for the
same address appends a snapshot with nonce 0 — neither equal to the
predecessor's nonce nor one greater, and the causing function is not
execTransaction. -/
theorem c1_counterexample :
    (run_process_decoded zeroEnv c1LedgerB c1D3).processed = true ∧
    (run_process_decoded zeroEnv c1LedgerB c1D3).ledger.safe_statuses =
      c1LedgerB.safe_statuses ++ [⟨witItx 5 102, 5, [1], 1, 0, 9⟩] ∧
    (last_for_address c1LedgerB.safe_statuses 5).map SafeStatus.nonce = some 1 ∧
    (0 : Nat) ≠ 1 ∧ (0 : Nat) ≠ 1 + 1 ∧
    c1D3.function_name ≠ "execTransaction" := by decide

/-- C1 amended: for every successful processor step whose function is not
setup, either no snapshot is appended, or exactly one snapshot is
appended whose nonce equals the previous snapshot's nonce or that nonce
plus one, with the increment happening if and only if the function is
execTransaction.  (A setup invocation instead appends a snapshot with
nonce 0 unconditionally.) -/
theorem c1_nonce_step
    (env : ProcEnv) (l : Ledger) (d : InternalTxDecoded) (l2 : Ledger) (s : Bool)
    (hrun : process_decoded_transaction env l d = .ok (l2, s))
    (hnot : d.function_name ≠ "setup") :
    l2.safe_statuses = l.safe_statuses ∨
    ∃ row ss, l2.safe_statuses = l.safe_statuses ++ [row] ∧
      last_for_address l.safe_statuses row.address = some ss ∧
      (row.nonce = ss.nonce ∨ row.nonce = ss.nonce + 1) ∧
      (row.nonce = ss.nonce + 1 ↔ d.function_name = "execTransaction") := by
  unfold process_decoded_transaction at hrun
  rw [if_neg (fun h => hnot h.1)] at hrun
  by_cases h2 : d.function_name = "addOwnerWithThreshold" ∨ d.function_name = "removeOwner" ∨
      d.function_name = "removeOwnerWithThreshold"
  · rw [if_pos h2] at hrun
    have hne : d.function_name ≠ "execTransaction" := by
      rcases h2 with h | h | h <;> rw [h] <;> decide
    unfold ownerBranch at hrun
    cases hlast : last_for_address l.safe_statuses d.internal_tx.from_addr with
    | none => rw [hlast] at hrun; cases hrun
    | some ss =>
      rw [hlast] at hrun
      cases hthr : getNum d.arguments "_threshold" with
      | error e => simp [hthr] at hrun
      | ok t =>
        cases hown : getAddr d.arguments "owner" with
        | error e => simp [hthr, hown] at hrun
        | ok o =>
          simp only [hthr, hown] at hrun
          injection hrun with h1
          injection h1 with hl hs
          right
          rw [← hl]
          refine ⟨_, ss, rfl, ?_, Or.inl rfl, ?_⟩
          · show last_for_address l.safe_statuses ss.address = some ss
            rw [last_for_address_addr hlast]; exact hlast
          · exact ⟨fun h => absurd h (Ne.symm (Nat.succ_ne_self ss.nonce)), fun h => absurd h hne⟩
  · rw [if_neg h2] at hrun
    by_cases h3 : d.function_name = "swapOwner"
    · rw [if_pos h3] at hrun
      have hne : d.function_name ≠ "execTransaction" := by rw [h3]; decide
      unfold swapOwnerBranch at hrun
      cases hold : getAddr d.arguments "oldOwner" with
      | error e => simp [hold] at hrun
      | ok old_o =>
        cases hnew : getAddr d.arguments "newOwner" with
        | error e => simp [hold, hnew] at hrun
        | ok new_o =>
          simp only [hold, hnew] at hrun
          cases hlast : last_for_address l.safe_statuses d.internal_tx.from_addr with
          | none => rw [hlast] at hrun; cases hrun
          | some ss =>
            rw [hlast] at hrun
            cases hrem : removeFirstOcc ss.owners old_o with
            | none => simp [hrem] at hrun
            | some rest =>
              simp only [hrem] at hrun
              injection hrun with h1
              injection h1 with hl hs
              right
              rw [← hl]
              refine ⟨_, ss, rfl, ?_, Or.inl rfl, ?_⟩
              · show last_for_address l.safe_statuses ss.address = some ss
                rw [last_for_address_addr hlast]; exact hlast
              · exact ⟨fun h => absurd h (Ne.symm (Nat.succ_ne_self ss.nonce)), fun h => absurd h hne⟩
    · rw [if_neg h3] at hrun
      by_cases h4 : d.function_name = "changeThreshold"
      · rw [if_pos h4] at hrun
        have hne : d.function_name ≠ "execTransaction" := by rw [h4]; decide
        unfold changeThresholdBranch at hrun
        cases hlast : last_for_address l.safe_statuses d.internal_tx.from_addr with
        | none => rw [hlast] at hrun; cases hrun
        | some ss =>
          rw [hlast] at hrun
          cases hthr : getNum d.arguments "_threshold" with
          | error e => simp [hthr] at hrun
          | ok t =>
            simp only [hthr] at hrun
            injection hrun with h1
            injection h1 with hl hs
            right
            rw [← hl]
            refine ⟨_, ss, rfl, ?_, Or.inl rfl, ?_⟩
            · show last_for_address l.safe_statuses ss.address = some ss
              rw [last_for_address_addr hlast]; exact hlast
            · exact ⟨fun h => absurd h (Ne.symm (Nat.succ_ne_self ss.nonce)), fun h => absurd h hne⟩
      · rw [if_neg h4] at hrun
        by_cases h5 : d.function_name = "changeMasterCopy"
        · rw [if_pos h5] at hrun
          have hne : d.function_name ≠ "execTransaction" := by rw [h5]; decide
          unfold changeMasterCopyBranch at hrun
          cases hlast : last_for_address l.safe_statuses d.internal_tx.from_addr with
          | none => rw [hlast] at hrun; cases hrun
          | some ss =>
            rw [hlast] at hrun
            cases hmc : getAddr d.arguments "_masterCopy" with
            | error e => simp [hmc] at hrun
            | ok mc =>
              simp only [hmc] at hrun
              injection hrun with h1
              injection h1 with hl hs
              right
              rw [← hl]
              refine ⟨_, ss, rfl, ?_, Or.inl rfl, ?_⟩
              · show last_for_address l.safe_statuses ss.address = some ss
                rw [last_for_address_addr hlast]; exact hlast
              · exact ⟨fun h => absurd h (Ne.symm (Nat.succ_ne_self ss.nonce)), fun h => absurd h hne⟩
        · rw [if_neg h5] at hrun
          by_cases h6 : d.function_name = "approveHash"
          · rw [if_pos h6] at hrun
            unfold approveHashBranch at hrun
            cases hh : getNum d.arguments "hashToApprove" with
            | error e => simp [hh] at hrun
            | ok h =>
              simp only [hh] at hrun
              cases hp : d.internal_tx.prev_trace_from with
              | none => rw [hp] at hrun; cases hrun
              | some owner =>
                rw [hp] at hrun
                cases hf : findConfirmation l.multisig_confirmations h owner with
                | none =>
                  simp only [hf] at hrun
                  injection hrun with h1
                  injection h1 with hl hs
                  left; rw [← hl]
                | some c =>
                  simp only [hf] at hrun
                  by_cases hc : c.ethereum_tx = none
                  · rw [if_pos (by simpa using hc)] at hrun
                    injection hrun with h1
                    injection h1 with hl hs
                    left; rw [← hl]
                  · rw [if_neg (by simpa using hc)] at hrun
                    injection hrun with h1
                    injection h1 with hl hs
                    left; rw [← hl]
          · rw [if_neg h6] at hrun
            by_cases h7 : d.function_name = "execTransaction"
            · rw [if_pos h7] at hrun
              unfold execTransactionBranch at hrun
              cases hlast : last_for_address l.safe_statuses d.internal_tx.from_addr with
              | none => rw [hlast] at hrun; cases hrun
              | some ss =>
                rw [hlast] at hrun
                cases hea : readExecArgs d.arguments with
                | error e => simp [hea] at hrun
                | ok ea =>
                  simp only [hea] at hrun
                  injection hrun with h1
                  injection h1 with hl hs
                  right
                  rw [← hl]
                  refine ⟨_, ss, rfl, ?_, Or.inr rfl, ?_⟩
                  · show last_for_address l.safe_statuses ss.address = some ss
                    rw [last_for_address_addr hlast]; exact hlast
                  · exact iff_of_true rfl h7
            · rw [if_neg h7] at hrun
              by_cases h8 : d.function_name = "execTransactionFromModule"
              · rw [if_pos h8] at hrun
                injection hrun with h1
                injection h1 with hl hs
                left; rw [← hl]
              · rw [if_neg h8] at hrun
                injection hrun with h1
                injection h1 with hl hs
                left; rw [← hl]

/-- Witness for C1 amended: the execTransaction step of the
counterexample run appends exactly one snapshot, to which the theorem's
conclusion applies concretely. -/
theorem c1_nonce_step_witness :
    c1LedgerB.safe_statuses = c1LedgerA.safe_statuses ∨
    ∃ row ss, c1LedgerB.safe_statuses = c1LedgerA.safe_statuses ++ [row] ∧
      last_for_address c1LedgerA.safe_statuses row.address = some ss ∧
      (row.nonce = ss.nonce ∨ row.nonce = ss.nonce + 1) ∧
      (row.nonce = ss.nonce + 1 ↔ c1D2.function_name = "execTransaction") :=
  c1_nonce_step zeroEnv c1LedgerA c1D2 c1LedgerB true (by rfl) (by decide)

/-- How many MultisigTransaction rows carry this safe_tx_hash. -/
def countByHash : List MultisigTransaction → Nat → Nat
  | [], _ => 0
  | m :: ms, h => (if m.safe_tx_hash = h then 1 else 0) + countByHash ms h

lemma countByHash_append (xs ys : List MultisigTransaction) (h : Nat) :
    countByHash (xs ++ ys) h = countByHash xs h + countByHash ys h := by
  induction xs with
  | nil => simp [countByHash]
  | cons m ms ih => simp [countByHash, ih]; omega

lemma countByHash_eq_zero_of_forall {rows : List MultisigTransaction} {h : Nat}
    (hall : ∀ m ∈ rows, m.safe_tx_hash ≠ h) : countByHash rows h = 0 := by
  induction rows with
  | nil => rfl
  | cons m ms ih =>
    unfold countByHash
    rw [if_neg (hall m (List.mem_cons_self _ _)), ih (fun x hx => hall x (List.mem_cons_of_mem _ hx))]

lemma findMultisigTx_eq_none {rows : List MultisigTransaction} {h : Nat} :
    findMultisigTx rows h = none ↔ ∀ m ∈ rows, m.safe_tx_hash ≠ h := by
  induction rows with
  | nil => simp [findMultisigTx]
  | cons m ms ih =>
    by_cases hm : m.safe_tx_hash = h
    · simp [findMultisigTx, hm]
    · simp [findMultisigTx, hm, ih]

lemma countByHash_one_of_nodup {rows : List MultisigTransaction} {h : Nat}
    {m : MultisigTransaction}
    (hnd : (rows.map MultisigTransaction.safe_tx_hash).Nodup)
    (hfind : findMultisigTx rows h = some m) : countByHash rows h = 1 := by
  induction rows with
  | nil => cases hfind
  | cons r rs ih =>
    rcases List.nodup_cons.mp hnd with ⟨hhead, htail⟩
    by_cases hr : r.safe_tx_hash = h
    · unfold countByHash
      rw [if_pos hr]
      have hzero : countByHash rs h = 0 := by
        apply countByHash_eq_zero_of_forall
        intro x hx hxk
        apply hhead
        rw [hr, ← hxk]
        exact List.mem_map_of_mem _ hx
      omega
    · unfold findMultisigTx at hfind
      rw [if_neg hr] at hfind
      unfold countByHash
      rw [if_neg hr, ih htail hfind]

lemma findMultisigTx_of_mem_nodup {rows : List MultisigTransaction} {h : Nat}
    {m : MultisigTransaction}
    (hnd : (rows.map MultisigTransaction.safe_tx_hash).Nodup)
    (hm : m ∈ rows) (hk : m.safe_tx_hash = h) : findMultisigTx rows h = some m := by
  induction rows with
  | nil => cases hm
  | cons r rs ih =>
    rcases List.nodup_cons.mp hnd with ⟨hhead, htail⟩
    rcases List.mem_cons.mp hm with h1 | h1
    · subst h1
      unfold findMultisigTx
      rw [if_pos hk]
    · by_cases hr : r.safe_tx_hash = h
      · exfalso
        apply hhead
        rw [hr, ← hk]
        exact List.mem_map_of_mem _ h1
      · unfold findMultisigTx
        rw [if_neg hr]
        exact ih htail h1

lemma countByHash_fill (rows : List MultisigTransaction) (h0 eth : Nat)
    (failed : Bool) (sigs : List Nat) (h : Nat) :
    countByHash (fillMultisigTx rows h0 eth failed sigs) h = countByHash rows h := by
  induction rows with
  | nil => rfl
  | cons m ms ih =>
    unfold fillMultisigTx at ih ⊢
    by_cases hm : m.safe_tx_hash = h0 <;>
      simp [countByHash, hm, ih]

lemma fill_map_keys (rows : List MultisigTransaction) (h0 eth : Nat)
    (failed : Bool) (sigs : List Nat) :
    (fillMultisigTx rows h0 eth failed sigs).map MultisigTransaction.safe_tx_hash =
      rows.map MultisigTransaction.safe_tx_hash := by
  induction rows with
  | nil => rfl
  | cons m ms ih =>
    unfold fillMultisigTx at ih ⊢
    by_cases hm : m.safe_tx_hash = h0 <;> simp [hm, ih]

lemma deleteStale_keys_nodup {rows : List MultisigTransaction} {eth nonce : Nat}
    {safe : Addr} {h : Nat}
    (hnd : (rows.map MultisigTransaction.safe_tx_hash).Nodup) :
    ((deleteStale rows eth nonce safe h).map MultisigTransaction.safe_tx_hash).Nodup :=
  hnd.sublist ((List.filter_sublist rows).map _)

lemma not_mem_deleteStale {rows : List MultisigTransaction} {eth nonce : Nat}
    {safe : Addr} {h : Nat} {m : MultisigTransaction}
    (h1 : m.ethereum_tx = some eth) (h2 : m.nonce = nonce) (h3 : m.safe = safe)
    (h4 : m.safe_tx_hash ≠ h) : m ∉ deleteStale rows eth nonce safe h := by
  intro hmem
  have := (List.mem_filter.mp hmem).2
  simp [h1, h2, h3, h4] at this

lemma mem_deleteStale_of_hash {rows : List MultisigTransaction} {eth nonce : Nat}
    {safe : Addr} {h : Nat} {m : MultisigTransaction}
    (hm : m ∈ rows) (hk : m.safe_tx_hash = h) : m ∈ deleteStale rows eth nonce safe h := by
  apply List.mem_filter.mpr
  refine ⟨hm, ?_⟩
  simp [hk]

lemma mem_upsertMultisigTx {rows : List MultisigTransaction} {h : Nat} {safe : Addr}
    {eth : Nat} {ea : ExecArgs} {nonce : Nat} {failed : Bool} {x : MultisigTransaction}
    (hx : x ∈ upsertMultisigTx rows h safe eth ea nonce failed) :
    x ∈ rows ∨ x.safe_tx_hash = h := by
  unfold upsertMultisigTx at hx
  cases hfind : findMultisigTx rows h with
  | none =>
    rw [hfind] at hx
    rcases List.mem_append.mp hx with h1 | h1
    · exact Or.inl h1
    · right
      simp at h1
      rw [h1]
  | some m =>
    simp only [hfind] at hx
    by_cases hm : m.ethereum_tx = none
    · rw [if_pos hm] at hx
      unfold fillMultisigTx at hx
      rcases List.mem_map.mp hx with ⟨m0, hm0, hmap⟩
      by_cases hk : m0.safe_tx_hash = h
      · right
        rw [← hmap, if_pos hk]
        exact hk
      · left
        rw [← hmap, if_neg hk]
        exact hm0
    · rw [if_neg hm] at hx
      exact Or.inl hx

lemma exec_multisig_eq
    {env : ProcEnv} {l : Ledger} {d : InternalTxDecoded} {l2 : Ledger} {s : Bool}
    {ss : SafeStatus} {ea : ExecArgs}
    (hfn : d.function_name = "execTransaction")
    (hlast : last_for_address l.safe_statuses d.internal_tx.from_addr = some ss)
    (hargs : readExecArgs d.arguments = .ok ea)
    (hrun : process_decoded_transaction env l d = .ok (l2, s)) :
    l2.multisig_transactions =
      upsertMultisigTx
        (deleteStale l.multisig_transactions d.internal_tx.ethereum_tx.tx_hash ss.nonce
          d.internal_tx.from_addr (env.safeTxHash (mkSafeTx d.internal_tx.from_addr ea ss.nonce)))
        (env.safeTxHash (mkSafeTx d.internal_tx.from_addr ea ss.nonce))
        d.internal_tx.from_addr d.internal_tx.ethereum_tx.tx_hash ea ss.nonce
        (env.isFailed d.internal_tx.ethereum_tx.tx_hash
          (env.safeTxHash (mkSafeTx d.internal_tx.from_addr ea ss.nonce))) := by
  rw [dispatch_exec hfn] at hrun
  unfold execTransactionBranch at hrun
  rw [hlast] at hrun
  simp only [hargs] at hrun
  injection hrun with h1
  injection h1 with hl hs
  rw [← hl]
  rfl

/-- C2: when the processor handles execTransaction, every pre-existing
MultisigTransaction row with the same ethereum_tx, safe and nonce but a
different safe_tx_hash than the newly computed one is gone afterwards,
and exactly one row with the computed safe_tx_hash exists. -/
theorem c2_exec_stale_deletion
    (env : ProcEnv) (l : Ledger) (d : InternalTxDecoded) (l2 : Ledger) (s : Bool)
    (ss : SafeStatus) (ea : ExecArgs)
    (hfn : d.function_name = "execTransaction")
    (hnodup : (l.multisig_transactions.map MultisigTransaction.safe_tx_hash).Nodup)
    (hlast : last_for_address l.safe_statuses d.internal_tx.from_addr = some ss)
    (hargs : readExecArgs d.arguments = .ok ea)
    (hrun : process_decoded_transaction env l d = .ok (l2, s)) :
    (∀ m ∈ l.multisig_transactions,
      m.ethereum_tx = some d.internal_tx.ethereum_tx.tx_hash →
      m.nonce = ss.nonce →
      m.safe = d.internal_tx.from_addr →
      m.safe_tx_hash ≠ env.safeTxHash (mkSafeTx d.internal_tx.from_addr ea ss.nonce) →
      m ∉ l2.multisig_transactions) ∧
    countByHash l2.multisig_transactions
      (env.safeTxHash (mkSafeTx d.internal_tx.from_addr ea ss.nonce)) = 1 := by
  have hms := exec_multisig_eq hfn hlast hargs hrun
  have hnd1 := @deleteStale_keys_nodup l.multisig_transactions
    d.internal_tx.ethereum_tx.tx_hash ss.nonce d.internal_tx.from_addr
    (env.safeTxHash (mkSafeTx d.internal_tx.from_addr ea ss.nonce)) hnodup
  constructor
  · intro m hm h1 h2 h3 h4
    rw [hms]
    intro hmem
    rcases mem_upsertMultisigTx hmem with hin | hkey
    · exact not_mem_deleteStale h1 h2 h3 h4 hin
    · exact h4 hkey
  · rw [hms]
    unfold upsertMultisigTx
    cases hfind : findMultisigTx
        (deleteStale l.multisig_transactions d.internal_tx.ethereum_tx.tx_hash ss.nonce
          d.internal_tx.from_addr (env.safeTxHash (mkSafeTx d.internal_tx.from_addr ea ss.nonce)))
        (env.safeTxHash (mkSafeTx d.internal_tx.from_addr ea ss.nonce)) with
    | none =>
      simp only [hfind]
      rw [countByHash_append,
        countByHash_eq_zero_of_forall (findMultisigTx_eq_none.mp hfind)]
      simp [countByHash]
    | some m =>
      simp only [hfind]
      by_cases hm : m.ethereum_tx = none
      · rw [if_pos hm, countByHash_fill]
        exact countByHash_one_of_nodup hnd1 hfind
      · rw [if_neg hm]
        exact countByHash_one_of_nodup hnd1 hfind

/-- C3: when the processor handles execTransaction and a
MultisigTransaction with the computed safe_tx_hash already exists, an
ethereum_tx-less row (earlier API submission) gets its ethereum_tx,
failed flag and signatures filled in, while a row that already carries an
ethereum_tx is left entirely unchanged. -/
theorem c3_exec_upsert_existing
    (env : ProcEnv) (l : Ledger) (d : InternalTxDecoded) (l2 : Ledger) (s : Bool)
    (ss : SafeStatus) (ea : ExecArgs) (m : MultisigTransaction)
    (hfn : d.function_name = "execTransaction")
    (hnodup : (l.multisig_transactions.map MultisigTransaction.safe_tx_hash).Nodup)
    (hlast : last_for_address l.safe_statuses d.internal_tx.from_addr = some ss)
    (hargs : readExecArgs d.arguments = .ok ea)
    (hm : m ∈ l.multisig_transactions)
    (hkey : m.safe_tx_hash = env.safeTxHash (mkSafeTx d.internal_tx.from_addr ea ss.nonce))
    (hrun : process_decoded_transaction env l d = .ok (l2, s)) :
    (m.ethereum_tx = none →
      { m with ethereum_tx := some d.internal_tx.ethereum_tx.tx_hash,
               failed := some (env.isFailed d.internal_tx.ethereum_tx.tx_hash
                 (env.safeTxHash (mkSafeTx d.internal_tx.from_addr ea ss.nonce))),
               signatures := some ea.signatures } ∈ l2.multisig_transactions) ∧
    (m.ethereum_tx ≠ none → m ∈ l2.multisig_transactions) := by
  have hms := exec_multisig_eq hfn hlast hargs hrun
  have hm1 : m ∈ deleteStale l.multisig_transactions d.internal_tx.ethereum_tx.tx_hash
      ss.nonce d.internal_tx.from_addr
      (env.safeTxHash (mkSafeTx d.internal_tx.from_addr ea ss.nonce)) :=
    mem_deleteStale_of_hash hm hkey
  have hnd1 := @deleteStale_keys_nodup l.multisig_transactions
    d.internal_tx.ethereum_tx.tx_hash ss.nonce d.internal_tx.from_addr
    (env.safeTxHash (mkSafeTx d.internal_tx.from_addr ea ss.nonce)) hnodup
  have hfind := findMultisigTx_of_mem_nodup hnd1 hm1 hkey
  constructor
  · intro hnone
    rw [hms]
    unfold upsertMultisigTx
    simp only [hfind]
    rw [if_pos hnone]
    unfold fillMultisigTx
    have hmem := List.mem_map_of_mem (fun x =>
      if x.safe_tx_hash = env.safeTxHash (mkSafeTx d.internal_tx.from_addr ea ss.nonce) then
        { x with ethereum_tx := some d.internal_tx.ethereum_tx.tx_hash,
                 failed := some (env.isFailed d.internal_tx.ethereum_tx.tx_hash
                   (env.safeTxHash (mkSafeTx d.internal_tx.from_addr ea ss.nonce))),
                 signatures := some ea.signatures }
      else x) hm1
    dsimp only at hmem
    rw [if_pos hkey] at hmem
    exact hmem
  · intro hsome
    rw [hms]
    unfold upsertMultisigTx
    simp only [hfind]
    rw [if_neg hsome]
    exact hm1

/-- Concrete v0.0.1 execTransaction argument dictionary for witnesses. -/
def execArgsW : Args :=
  [("to", .addr 7), ("value", .num 0), ("data", .bytes []), ("operation", .num 0),
   ("safeTxGas", .num 0), ("dataGas", .num 0), ("gasPrice", .num 0),
   ("gasToken", .addr 0), ("refundReceiver", .addr 0), ("signatures", .bytes [])]

/-- Concrete execTransaction invocation for witnesses; its parent tx hash
is 500. -/
def execDecodedW : InternalTxDecoded := ⟨"execTransaction", execArgsW, witItx 5 500⟩

/-- The ExecArgs readExecArgs extracts from execArgsW. -/
def witEA : ExecArgs := ⟨7, 0, [], 0, 0, 0, "0.0.1", 0, 0, 0, []⟩

/-- The last snapshot of the witness wallet: owners [1], nonce 0. -/
def witSS : SafeStatus := ⟨witItx 5 100, 5, [1], 1, 0, 9⟩

/-- A stale MultisigTransaction sharing (ethereum_tx 500, nonce 0,
safe 5) but with hash 99, different from the computed hash 0. -/
def c2WitStale : MultisigTransaction :=
  ⟨99, 5, some 500, 7, 0, none, 0, 0, 0, 0, 0, 0, 0, none, none⟩

/-- Ledger holding the stale row before the execTransaction arrives. -/
def c2WitLedger : Ledger := ⟨[], [witSS], [c2WitStale], []⟩

/-- Ledger after processing the execTransaction over c2WitLedger. -/
def c2WitLedger2 : Ledger := (run_process_decoded zeroEnv c2WitLedger execDecodedW).ledger

/-- Witness for C2: the stale hash-99 row is deleted and exactly one row
with the computed hash remains. -/
theorem c2_exec_stale_deletion_witness :
    (∀ m ∈ c2WitLedger.multisig_transactions,
      m.ethereum_tx = some execDecodedW.internal_tx.ethereum_tx.tx_hash →
      m.nonce = witSS.nonce →
      m.safe = execDecodedW.internal_tx.from_addr →
      m.safe_tx_hash ≠
        zeroEnv.safeTxHash (mkSafeTx execDecodedW.internal_tx.from_addr witEA witSS.nonce) →
      m ∉ c2WitLedger2.multisig_transactions) ∧
    countByHash c2WitLedger2.multisig_transactions
      (zeroEnv.safeTxHash (mkSafeTx execDecodedW.internal_tx.from_addr witEA witSS.nonce)) = 1 :=
  c2_exec_stale_deletion zeroEnv c2WitLedger execDecodedW c2WitLedger2 true witSS witEA
    rfl (by decide) rfl rfl rfl

/-- A MultisigTransaction submitted earlier through the API: it carries
the computed hash 0 but no ethereum_tx. -/
def c3WitRow : MultisigTransaction :=
  ⟨0, 5, none, 7, 0, none, 0, 0, 0, 0, 0, 0, 0, none, none⟩

/-- Ledger holding the API-submitted row before the execTransaction. -/
def c3WitLedger : Ledger := ⟨[], [witSS], [c3WitRow], []⟩

/-- Ledger after processing the execTransaction over c3WitLedger. -/
def c3WitLedger2 : Ledger := (run_process_decoded zeroEnv c3WitLedger execDecodedW).ledger

/-- Witness for C3: the ethereum_tx-less row gets ethereum_tx, failed and
signatures filled in by the execTransaction step. -/
theorem c3_exec_upsert_existing_witness :
    (c3WitRow.ethereum_tx = none →
      { c3WitRow with
          ethereum_tx := some execDecodedW.internal_tx.ethereum_tx.tx_hash,
          failed := some (zeroEnv.isFailed execDecodedW.internal_tx.ethereum_tx.tx_hash
            (zeroEnv.safeTxHash (mkSafeTx execDecodedW.internal_tx.from_addr witEA witSS.nonce))),
          signatures := some witEA.signatures } ∈ c3WitLedger2.multisig_transactions) ∧
    (c3WitRow.ethereum_tx ≠ none → c3WitRow ∈ c3WitLedger2.multisig_transactions) :=
  c3_exec_upsert_existing zeroEnv c3WitLedger execDecodedW c3WitLedger2 true witSS witEA
    c3WitRow rfl (by decide) rfl rfl (by decide) rfl rfl

/-
  Collectibles resolver (collectibles_service.py, get_collectibles).

  The ERC-721 Transfer events for the owner come from the ledger
  (EthereumEvent.objects.erc721_events, modelled as an input list), and the
  chain reads (batched ownerOf / tokenURI calls with raise_exception=False,
  name/symbol lookups) are an oracle; a failed batched call yields none.
-/

/-- An ERC-721 Transfer event row as the resolver sees it: the token
contract address and the tokenId argument (arguments.get can be None). -/
structure ERC721Event where
  address : Addr
  token_id : Option Nat
deriving DecidableEq, Repr

/-- Chain reads used by get_collectibles: ownerOf and tokenURI per
(contract, tokenId), and the name/symbol pair of a token contract. -/
structure ChainReads where
  owner_of : Addr → Nat → Option Addr
  token_uri : Addr → Nat → Option String
  token_info : Addr → Option (String × String)

/-- A collectible as returned to the API layer. -/
structure Collectible where
  token_name : String
  token_symbol : String
  address : Addr
  id : Nat
  uri : Option String
deriving DecidableEq, Repr

/-- The name/symbol resolution of get_collectibles: missing info yields
empty strings, and a symbol much longer than the name is swapped with it. -/
def resolveTokenInfo (o : ChainReads) (a : Addr) : String × String :=
  match o.token_info a with
  | none => ("", "")
  | some (name, symbol) =>
    if (name.length : Int) - (symbol.length : Int) < -5 then (symbol, name)
    else (name, symbol)

/-- CollectiblesService.get_collectibles: pair each event with its
tokenId (a missing tokenId is logged and replaced by 0), keep the events
whose token is still owned by the queried address, then zip the surviving
events against the batched tokenURI results OF THE UNFILTERED event
list — exactly as the source does: it builds token_uri_filtered_queries
but zips filtered_events with the batch call over token_uri_queries.
A falsy uri falls back to the CryptoKitties endpoint for the known
CryptoKitties contracts and is kept falsy otherwise. -/
def get_collectibles (o : ChainReads) (ck_addresses : List Addr) (safe_address : Addr)
    (erc721_events : List ERC721Event) : List Collectible :=
  let withIds := erc721_events.map (fun e => (e, e.token_id.getD 0))
  let filtered_events := withIds.filter
    (fun p => o.owner_of p.1.address p.2 = some safe_address)
  let token_uris := withIds.map (fun p => o.token_uri p.1.address p.2)
  (filtered_events.zip token_uris).map (fun q =>
    let e := q.1.1
    let tid := q.1.2
    let ns := resolveTokenInfo o e.address
    let uri :=
      if q.2 = none ∨ q.2 = some "" then
        if e.address ∈ ck_addresses then
          some (String.append "https://api.cryptokitties.co/kitties/" (toString tid))
        else q.2
      else q.2
    ⟨ns.1, ns.2, e.address, tid, uri⟩)

/-- Chain reads for the C9 failing input: token 1 of contract 10 now
belongs to address 6, token 2 still belongs to address 5; the two tokens
have distinct tokenURIs. -/
def c9Reads : ChainReads :=
  ⟨fun a t => if a = 10 ∧ t = 1 then some 6
    else if a = 10 ∧ t = 2 then some 5 else none,
   fun a t => if a = 10 ∧ t = 1 then some "uri-of-token-1"
    else if a = 10 ∧ t = 2 then some "uri-of-token-2" else none,
   fun _ => none⟩

/-- C9 (code bug): with two Transfer events for tokens 1 and 2 of the
same contract, where only token 2 is still owned by the queried address,
get_collectibles returns token 2 carrying the tokenURI of token 1 — the
surviving events are zipped against the uri list of the unfiltered
events — so the returned uri is not the tokenURI of the returned token. -/
theorem c9_uri_misalignment :
    get_collectibles c9Reads [] 5 [⟨10, some 1⟩, ⟨10, some 2⟩] =
      [⟨"", "", 10, 2, some "uri-of-token-1"⟩] ∧
    c9Reads.token_uri 10 2 = some "uri-of-token-2" ∧
    some "uri-of-token-1" ≠ some "uri-of-token-2" := by decide
